import Mathlib

/-!
Shallow embedding of the redshot trading engine (src/redshot), covering the
indicator and strategy code in asset_advisor.py and the risk-supervisor cycle
in system_supervisor.py, together with the portfolio bookkeeping of
portfolio_manager.py.  Prices, volumes and cash are modelled as rationals;
Python dicts are modelled as association lists keyed by strings; Python's
ZeroDivisionError is modelled by an explicit error result.
-/

namespace Redshot

/-- Recommendation side, mirroring the string field in entities.Recommendation. -/
inductive Side
  | buy
  | sell
  | hold
  deriving DecidableEq, Repr

/-- The fields of entities.Recommendation that the engine reads: side, the
optional price at evaluation time, and the confidence score.  Asset, exchange
and timestamps carry no decision content and are omitted. -/
structure Recommendation where
  side : Side
  price : Option ℚ
  confidence : ℚ
  deriving DecidableEq, Repr

/-- Result of a strategy evaluation: either a recommendation, or a Python
ZeroDivisionError raised at the named division site. -/
inductive StratResult
  | ok (rec : Recommendation)
  | zeroDivision (site : String)
  deriving DecidableEq, Repr

/-- Python slice `l[-w:]` for a non-negative `w`: the last `w` elements, the
whole list when `w = 0` (since `-0 == 0`) or when `w` exceeds the length. -/
def lastSlice (l : List ℚ) (w : Nat) : List ℚ :=
  if w = 0 then l else l.drop (l.length - w)

/-- Consecutive differences `[l₁ - l₀, l₂ - l₁, ...]` of a list. -/
def diffs (l : List ℚ) : List ℚ :=
  List.zipWith (fun a b => b - a) l l.tail

/-- Python `max(l)` for a non-empty list (head default for totality). -/
def listMax (l : List ℚ) : ℚ := l.foldl max (l.headD 0)

/-- Python `min(l)` for a non-empty list (head default for totality). -/
def listMin (l : List ℚ) : ℚ := l.foldl min (l.headD 0)

/-! ## SimpleMovingAverageStrategy (asset_advisor.py lines 26-90) -/

/-- Constructor parameters of SimpleMovingAverageStrategy. -/
structure SmaConfig where
  window : Nat
  threshold : ℚ
  deriving DecidableEq, Repr

/-- SimpleMovingAverageStrategy.generate_recommendations.  On an empty series
it returns hold with confidence 0 and price equal to the current price; on a
non-empty series it averages `historical_prices[-window:]` (which is the whole
series when it is shorter than the window) and applies the threshold rule; the
division producing `delta` raises ZeroDivisionError when that average is 0. -/
def smaGenerate (cfg : SmaConfig) (historical_prices : List ℚ)
    (current_price : ℚ) : StratResult :=
  if historical_prices = [] then
    .ok { side := .hold, price := some current_price, confidence := 0 }
  else
    let window_prices := lastSlice historical_prices cfg.window
    let average_price := window_prices.sum / (window_prices.length : ℚ)
    if average_price = 0 then .zeroDivision "average_price"
    else
      let delta := (current_price - average_price) / average_price
      let confidence := |delta|
      let side :=
        if delta > cfg.threshold then Side.buy
        else if delta < -cfg.threshold then Side.sell
        else Side.hold
      .ok { side := side, price := some current_price,
            confidence := min confidence 1 }

/-! ## EnhancedSMAStrategy indicators (asset_advisor.py lines 144-177) -/

/-- Constructor parameters of EnhancedSMAStrategy. -/
structure EnhancedConfig where
  short_window : Nat
  long_window : Nat
  threshold : ℚ
  volume_window : Nat
  rsi_period : Nat
  overbought : ℚ
  oversold : ℚ
  deriving DecidableEq, Repr

/-- EnhancedSMAStrategy._sma: none when the list is empty or shorter than the
window, otherwise the mean of `values[-window:]`. -/
def sma (values : List ℚ) (window : Nat) : Option ℚ :=
  if values = [] ∨ values.length < window then none
  else
    let window_values := lastSlice values window
    some (window_values.sum / (window_values.length : ℚ))

/-- The `period` consecutive price changes `prices[i] - prices[i-1]` for
`i ∈ [-period, 0)` used by EnhancedSMAStrategy._rsi (meaningful when the
series has at least `period + 1` points). -/
def priceChanges (prices : List ℚ) (period : Nat) : List ℚ :=
  diffs (lastSlice prices (period + 1))

/-- Average gain of EnhancedSMAStrategy._rsi: the non-negative changes summed
and divided by `period`; 0.0 when there are no gains. -/
def avgGain (prices : List ℚ) (period : Nat) : ℚ :=
  let gains := (priceChanges prices period).filter (fun c => 0 ≤ c)
  if gains = [] then 0 else gains.sum / (period : ℚ)

/-- Average loss of EnhancedSMAStrategy._rsi: the absolute values of the
negative changes summed and divided by `period`; 0.0 when there are no
losses. -/
def avgLoss (prices : List ℚ) (period : Nat) : ℚ :=
  let losses := ((priceChanges prices period).filter (fun c => c < 0)).map
    (fun c => -c)
  if losses = [] then 0 else losses.sum / (period : ℚ)

/-- EnhancedSMAStrategy._rsi: none when fewer than `period + 1` points exist;
100 exactly when the average loss is 0; otherwise `100 - 100/(1 + rs)` with
`rs = avg_gain / avg_loss`. -/
def rsi (prices : List ℚ) (period : Nat) : Option ℚ :=
  if prices.length < period + 1 then none
  else if avgLoss prices period = 0 then some 100
  else some (100 - 100 / (1 + avgGain prices period / avgLoss prices period))

/-! ## EnhancedSMAStrategy.generate_recommendations (lines 179-258) -/

/-- Volume-confirmation gate (lines 192-197): returns the computed
`avg_volume` (none when there is no sufficient volume history, in which case
the gate passes by default) and the `volume_ok` flag, which requires the
latest volume to strictly exceed the average of the earlier volumes in the
window; with a single volume point in the window the average is that point
itself. -/
def volumeGate (volumes : List ℚ) (volume_window : Nat) : Option ℚ × Bool :=
  if volumes ≠ [] ∧ volume_window ≤ volumes.length then
    let recent_vols := lastSlice volumes volume_window
    let avg_volume :=
      if 1 < recent_vols.length then
        recent_vols.dropLast.sum / ((recent_vols.length : ℚ) - 1)
      else recent_vols.headD 0
    (some avg_volume, decide (avg_volume < recent_vols.getLastD 0))
  else (none, true)

/-- Signal selection of EnhancedSMAStrategy (lines 213-235): hold when the
short SMA is undefined or zero (Python truthiness of `if short_sma:`), else
the gated threshold rule on the deviation from the short SMA.  The division
producing `delta` only runs behind the nonzero guard. -/
def decideSide (cfg : EnhancedConfig) (current_price : ℚ)
    (short_sma long_sma : Option ℚ)
    (volume_ok rsi_ok_buy rsi_ok_sell support_ok resistance_ok : Bool) :
    Recommendation :=
  match short_sma with
  | none => { side := .hold, price := some current_price, confidence := 0 }
  | some s =>
    if s = 0 then
      { side := .hold, price := some current_price, confidence := 0 }
    else
      let delta := (current_price - s) / s
      let confidence := |delta|
      let long_ok_buy : Bool :=
        match long_sma with
        | none => true
        | some l => decide (current_price > l)
      let long_ok_sell : Bool :=
        match long_sma with
        | none => true
        | some l => decide (current_price < l)
      let side :=
        if decide (delta > cfg.threshold) && long_ok_buy && volume_ok &&
            resistance_ok && rsi_ok_buy then
          Side.buy
        else if decide (delta < -cfg.threshold) && long_ok_sell &&
            support_ok && rsi_ok_sell then
          Side.sell
        else Side.hold
      { side := side, price := some current_price,
        confidence := min confidence 1 }

/-- EnhancedSMAStrategy.generate_recommendations: computes the indicators,
the support/resistance flags over the last `long_window` prices (raising
ZeroDivisionError when the recent high, respectively low, is zero — the
resistance division on line 210 runs before the support division on line
212), and delegates the signal choice to `decideSide`. -/
def enhancedGenerate (cfg : EnhancedConfig) (prices volumes : List ℚ)
    (current_price : ℚ) : StratResult :=
  let short_sma := sma prices cfg.short_window
  let long_sma := sma prices cfg.long_window
  let volume_ok := (volumeGate volumes cfg.volume_window).2
  let rsi_value := rsi prices cfg.rsi_period
  let rsi_ok_buy : Bool :=
    match rsi_value with
    | none => true
    | some r => decide (r ≤ cfg.overbought)
  let rsi_ok_sell : Bool :=
    match rsi_value with
    | none => true
    | some r => decide (cfg.oversold ≤ r)
  if prices ≠ [] ∧ cfg.long_window ≤ prices.length then
    let recent_prices := lastSlice prices cfg.long_window
    let recent_high := listMax recent_prices
    let recent_low := listMin recent_prices
    if recent_high = 0 then .zeroDivision "resistance"
    else if recent_low = 0 then .zeroDivision "support"
    else
      let resistance_ok := decide ((recent_high - current_price) / recent_high > 2 / 100)
      let support_ok := decide ((current_price - recent_low) / recent_low > 2 / 100)
      .ok (decideSide cfg current_price short_sma long_sma volume_ok
        rsi_ok_buy rsi_ok_sell support_ok resistance_ok)
  else
    .ok (decideSide cfg current_price short_sma long_sma volume_ok
      rsi_ok_buy rsi_ok_sell true true)

/-! ## Association lists modelling Python dicts -/

/-- Python `d.get(k)` on an association list. -/
def alookup {α : Type} (l : List (String × α)) (k : String) : Option α :=
  match l with
  | [] => none
  | (k', v) :: rest => if k' = k then some v else alookup rest k

/-- Python `d[k] = v`: replace the binding of `k`, or append a new one. -/
def aset {α : Type} (l : List (String × α)) (k : String) (v : α) :
    List (String × α) :=
  match l with
  | [] => [(k, v)]
  | (k', v') :: rest =>
    if k' = k then (k, v) :: rest else (k', v') :: aset rest k v

/-- Python `del d[k]`: drop the bindings of `k`. -/
def aerase {α : Type} (l : List (String × α)) (k : String) :
    List (String × α) :=
  match l with
  | [] => []
  | (k', v) :: rest =>
    if k' = k then aerase rest k else (k', v) :: aerase rest k

/-! ## SystemSupervisor (system_supervisor.py lines 29-161) -/

/-- Per-asset stop tracking dict values of SystemSupervisor.stop_levels. -/
structure StopLevel where
  entry_price : ℚ
  stop_loss : ℚ
  highest_price : ℚ
  trailing_stop : ℚ
  deriving DecidableEq, Repr

/-- Risk parameters of SystemSupervisor. -/
structure SupConfig where
  max_risk_pct : ℚ
  stop_loss_pct : ℚ
  trailing_stop_pct : ℚ
  deriving DecidableEq, Repr

/-- The mutable state touched by run_once: the portfolio manager's cash and
positions (amounts keyed by asset code) and the supervisor's stop-level
table. -/
structure SupState where
  cash : ℚ
  positions : List (String × ℚ)
  stop_levels : List (String × StopLevel)
  deriving DecidableEq, Repr

/-- Per-asset cycle inputs of run_once: the asset code, the advisor's
recommendation side and optional price (`advise` returns price None when the
current price is unavailable), and whether the broker's place_order returns a
trade (test mode echoes the requested side, quantity and price back). -/
structure AssetInput where
  code : String
  rec_side : Side
  rec_price : Option ℚ
  broker_ok : Bool
  deriving DecidableEq, Repr

/-- An order submitted to TradeBroker.place_order by run_once. -/
structure OrderReq where
  side : Side
  quantity : ℚ
  price : ℚ
  deriving DecidableEq, Repr

/-- Stop-level maintenance of run_once lines 83-87: raise the recorded
highest price to the current price when exceeded and recompute the trailing
stop as `highest * (1 - trailing_stop_pct)`. -/
def updateLevel (trailing_stop_pct : ℚ) (lvl : StopLevel)
    (current_price : ℚ) : StopLevel :=
  let highest := max lvl.highest_price current_price
  { lvl with highest_price := highest,
             trailing_stop := highest * (1 - trailing_stop_pct) }

/-- Stop-loss phase of run_once (lines 77-105): when a positive position, a
truthy current price (Python: not None and nonzero) and a stop level are all
present, update the level in place and force the recommendation side to sell
when the price breaches the stored stop loss or the recomputed trailing stop;
otherwise the state and the advisor's side pass through unchanged. -/
def levelPhase (cfg : SupConfig) (st : SupState) (inp : AssetInput) :
    SupState × Side :=
  match alookup st.positions inp.code, inp.rec_price with
  | some amt, some p =>
    if 0 < amt ∧ p ≠ 0 then
      match alookup st.stop_levels inp.code with
      | some lvl =>
        let lvl' := updateLevel cfg.trailing_stop_pct lvl p
        let st' := { st with stop_levels := aset st.stop_levels inp.code lvl' }
        if p ≤ lvl.stop_loss ∨ p ≤ lvl'.trailing_stop then (st', Side.sell)
        else (st', inp.rec_side)
      | none => (st, inp.rec_side)
    else (st, inp.rec_side)
  | _, _ => (st, inp.rec_side)

/-- The side run_once acts on for an asset: the advisor's recommendation
after the stop-loss/trailing-stop override. -/
def effectiveSide (cfg : SupConfig) (st : SupState) (inp : AssetInput) :
    Side :=
  (levelPhase cfg st inp).2

/-- PortfolioManager.compute_total_value: cash plus the sum of
amount × price over the positions whose price resolves (unresolved prices
contribute nothing).  The price oracle stands for MarketResearcher.get_price.
-/
def totalValue (priceOf : String → Option ℚ) (st : SupState) : ℚ :=
  st.cash + (st.positions.map (fun p =>
    match priceOf p.1 with
    | some q => p.2 * q
    | none => 0)).sum

/-- Trade-sizing logic of run_once lines 106-128: none when the asset is
skipped (hold signal, untruthy price, non-positive buy quantity, or nothing
held to sell), otherwise the order submitted to the broker.  A buy invests
`min(cash, total_value * max_risk_pct)`; a sell liquidates the entire held
amount. -/
def tradeDecision (cfg : SupConfig) (priceOf : String → Option ℚ)
    (st : SupState) (inp : AssetInput) (side : Side) : Option OrderReq :=
  match inp.rec_price with
  | none => none
  | some p =>
    if (side = Side.buy ∨ side = Side.sell) ∧ p ≠ 0 then
      match side with
      | Side.buy =>
        let total_value := totalValue priceOf st
        let max_investment := total_value * cfg.max_risk_pct
        let invest_dollars := min st.cash max_investment
        let quantity := if 0 < p then invest_dollars / p else 0
        if quantity ≤ 0 then none else some ⟨Side.buy, quantity, p⟩
      | Side.sell =>
        match alookup st.positions inp.code with
        | none => none
        | some amt => if amt ≤ 0 then none else some ⟨Side.sell, amt, p⟩
      | Side.hold => none
    else none

/-- PortfolioManager.update_position: a buy decreases cash by
price × quantity and increases (or creates) the position; a sell increases
cash and decreases the position. -/
def updatePosition (st : SupState) (code : String) (side : Side)
    (price quantity : ℚ) : SupState :=
  let cash' :=
    if side = Side.buy then st.cash - price * quantity
    else if side = Side.sell then st.cash + price * quantity
    else st.cash
  let delta := if side = Side.buy then quantity else -quantity
  let positions' :=
    match alookup st.positions code with
    | none => st.positions ++ [(code, delta)]
    | some amt => aset st.positions code (amt + delta)
  { st with cash := cash', positions := positions' }

/-- The stop level created by run_once lines 144-149 after an executed buy. -/
def initLevel (cfg : SupConfig) (entry_price : ℚ) : StopLevel :=
  { entry_price := entry_price,
    stop_loss := entry_price * (1 - cfg.stop_loss_pct),
    highest_price := entry_price,
    trailing_stop := entry_price * (1 - cfg.trailing_stop_pct) }

/-- Trade phase of run_once (lines 106-152): submit the sized order, and on a
returned trade apply it to the portfolio and maintain the stop-level table
(create/replace on buy, delete on sell when present); on broker failure or a
skip, leave the state as it stands. -/
def tradePhase (cfg : SupConfig) (priceOf : String → Option ℚ)
    (st : SupState) (inp : AssetInput) (side : Side) : SupState :=
  match tradeDecision cfg priceOf st inp side with
  | none => st
  | some ord =>
    if inp.broker_ok then
      let st2 := updatePosition st inp.code ord.side ord.price ord.quantity
      match ord.side with
      | Side.buy =>
        { st2 with
          stop_levels := aset st2.stop_levels inp.code (initLevel cfg ord.price) }
      | Side.sell =>
        if (alookup st2.stop_levels inp.code).isSome then
          { st2 with stop_levels := aerase st2.stop_levels inp.code }
        else st2
      | Side.hold => st2
    else st

/-- The body of run_once's per-asset loop (lines 73-152). -/
def processAsset (cfg : SupConfig) (priceOf : String → Option ℚ)
    (st : SupState) (inp : AssetInput) : SupState :=
  let phase := levelPhase cfg st inp
  tradePhase cfg priceOf phase.1 inp phase.2

/-- SystemSupervisor.run_once: process every tracked asset in sequence.  The
performance snapshot at the end reads but does not change this state. -/
def runOnce (cfg : SupConfig) (priceOf : String → Option ℚ)
    (st : SupState) (inputs : List AssetInput) : SupState :=
  inputs.foldl (processAsset cfg priceOf) st

/-! ## Association-list lemmas -/

theorem alookup_aset_self {α : Type} (l : List (String × α)) (k : String)
    (v : α) : alookup (aset l k v) k = some v := by
  induction l with
  | nil => simp [aset, alookup]
  | cons hd tl ih =>
    obtain ⟨k', v'⟩ := hd
    by_cases h : k' = k
    · simp [aset, alookup, h]
    · simp [aset, alookup, h, ih]

theorem alookup_aset_ne {α : Type} (l : List (String × α)) (k k' : String)
    (v : α) (h : k' ≠ k) : alookup (aset l k v) k' = alookup l k' := by
  have hkk : k ≠ k' := fun he => h he.symm
  induction l with
  | nil => simp [aset, alookup, hkk]
  | cons hd tl ih =>
    obtain ⟨k0, v0⟩ := hd
    by_cases hk : k0 = k
    · subst hk
      simp [aset, alookup, hkk]
    · simp [aset, alookup, hk, ih]

theorem alookup_aerase_self {α : Type} (l : List (String × α)) (k : String) :
    alookup (aerase l k) k = none := by
  induction l with
  | nil => simp [aerase, alookup]
  | cons hd tl ih =>
    obtain ⟨k0, v0⟩ := hd
    by_cases hk : k0 = k
    · simpa [aerase, alookup, hk] using ih
    · simpa [aerase, alookup, hk] using ih

theorem alookup_aerase_ne {α : Type} (l : List (String × α)) (k k' : String)
    (h : k' ≠ k) : alookup (aerase l k) k' = alookup l k' := by
  induction l with
  | nil => simp [aerase, alookup]
  | cons hd tl ih =>
    obtain ⟨k0, v0⟩ := hd
    by_cases hk : k0 = k
    · have hkk : k ≠ k' := fun he => h he.symm
      simpa [aerase, alookup, hk, hkk] using ih
    · by_cases hk' : k0 = k'
      · simp [aerase, alookup, hk, hk', h]
      · simpa [aerase, alookup, hk, hk'] using ih

theorem alookup_append_self {α : Type} (l : List (String × α)) (k : String)
    (v : α) (h : alookup l k = none) :
    alookup (l ++ [(k, v)]) k = some v := by
  induction l with
  | nil => simp [alookup]
  | cons hd tl ih =>
    obtain ⟨k0, v0⟩ := hd
    by_cases hk : k0 = k
    · simp [alookup, hk] at h
    · simp only [alookup, hk] at h
      simpa [alookup, hk] using ih h

theorem alookup_append_ne {α : Type} (l : List (String × α)) (k k' : String)
    (v : α) (h : k' ≠ k) :
    alookup (l ++ [(k, v)]) k' = alookup l k' := by
  have hkk : k ≠ k' := fun he => h he.symm
  induction l with
  | nil => simp [alookup, hkk]
  | cons hd tl ih =>
    obtain ⟨k0, v0⟩ := hd
    by_cases hk : k0 = k'
    · simp [alookup, hk]
    · simpa [alookup, hk] using ih

theorem alookup_aset_isSome {α : Type} (l : List (String × α)) (k : String)
    (v w : α) (hk : alookup l k = some w) (k' : String) :
    (alookup (aset l k v) k').isSome = (alookup l k').isSome := by
  by_cases h : k' = k
  · subst h
    rw [alookup_aset_self, hk]
    rfl
  · rw [alookup_aset_ne _ _ _ _ h]

/-! ## Structural lemmas about the supervisor phases -/

theorem updateLevel_highest (tsp : ℚ) (lvl : StopLevel) (p : ℚ) :
    (updateLevel tsp lvl p).highest_price = max lvl.highest_price p := rfl

theorem updateLevel_trailing (tsp : ℚ) (lvl : StopLevel) (p : ℚ) :
    (updateLevel tsp lvl p).trailing_stop =
      max lvl.highest_price p * (1 - tsp) := rfl

/-- The stop-loss phase never touches cash or positions. -/
theorem levelPhase_fst (cfg : SupConfig) (st : SupState) (inp : AssetInput) :
    ((levelPhase cfg st inp).1).cash = st.cash ∧
    ((levelPhase cfg st inp).1).positions = st.positions := by
  unfold levelPhase
  rcases alookup st.positions inp.code with _ | amt <;>
    rcases inp.rec_price with _ | p <;> simp
  split
  · rcases alookup st.stop_levels inp.code with _ | lvl
    · simp
    · simp only
      split <;> simp
  · simp

/-- The stop-loss phase preserves which asset codes have a stop level. -/
theorem levelPhase_stop_isSome (cfg : SupConfig) (st : SupState)
    (inp : AssetInput) (code : String) :
    (alookup ((levelPhase cfg st inp).1).stop_levels code).isSome =
      (alookup st.stop_levels code).isSome := by
  unfold levelPhase
  rcases alookup st.positions inp.code with _ | amt <;>
    rcases inp.rec_price with _ | p <;> simp
  split
  · rcases hlvl : alookup st.stop_levels inp.code with _ | lvl
    · simp
    · simp only
      split <;> · simp [alookup_aset_isSome _ _ _ _ hlvl]
  · simp

/-- Submitted orders carry the recommendation price, and a positive quantity:
the invested amount over the price on a buy, the entire held amount on a
sell. -/
theorem tradeDecision_spec (cfg : SupConfig) (priceOf : String → Option ℚ)
    (st : SupState) (inp : AssetInput) (side : Side) (ord : OrderReq)
    (h : tradeDecision cfg priceOf st inp side = some ord) :
    inp.rec_price = some ord.price ∧ ord.price ≠ 0 ∧
    ((ord.side = Side.buy ∧ 0 < ord.quantity) ∨
     (ord.side = Side.sell ∧
       alookup st.positions inp.code = some ord.quantity ∧
       0 < ord.quantity)) := by
  unfold tradeDecision at h
  split at h
  next => exact absurd h (by simp)
  next p hp =>
    split at h
    next hguard =>
      split at h
      next =>
        dsimp only at h
        split at h
        next hpp =>
          split at h
          next hq2 => exact absurd h (by simp)
          next hq2 =>
            have he := Option.some_inj.mp h
            subst he
            exact ⟨hp, hguard.2, Or.inl ⟨rfl, not_le.mp hq2⟩⟩
        next hpp =>
          rw [if_pos le_rfl] at h
          exact absurd h (by simp)
      next =>
        split at h
        next => exact absurd h (by simp)
        next amt hamt =>
          split at h
          next hq => exact absurd h (by simp)
          next hq =>
            have he := Option.some_inj.mp h
            subst he
            exact ⟨hp, hguard.2, Or.inr ⟨rfl, hamt, not_le.mp hq⟩⟩
      next => exact absurd h (by simp)
    next => exact absurd h (by simp)

/-- The position table after update_position: the traded asset's amount moves
by the signed quantity (from 0 if absent), everything else is unchanged. -/
theorem updatePosition_lookup_self (st : SupState) (code : String)
    (side : Side) (p q : ℚ) :
    alookup (updatePosition st code side p q).positions code =
      some ((alookup st.positions code).getD 0 +
        (if side = Side.buy then q else -q)) := by
  unfold updatePosition
  rcases hl : alookup st.positions code with _ | amt
  · simp only [hl]
    rw [alookup_append_self _ _ _ hl]
    simp
  · simp only [hl]
    rw [alookup_aset_self]
    simp

theorem updatePosition_lookup_ne (st : SupState) (code : String) (side : Side)
    (p q : ℚ) (code' : String) (h : code' ≠ code) :
    alookup (updatePosition st code side p q).positions code' =
      alookup st.positions code' := by
  unfold updatePosition
  rcases hl : alookup st.positions code with _ | amt
  · simp only [hl]
    exact alookup_append_ne _ _ _ _ h
  · simp only [hl]
    exact alookup_aset_ne _ _ _ _ h

theorem updatePosition_stop_levels (st : SupState) (code : String)
    (side : Side) (p q : ℚ) :
    (updatePosition st code side p q).stop_levels = st.stop_levels := rfl

/-- A skipped order or a failed broker call leaves the trade phase a no-op. -/
theorem tradePhase_no_trade (cfg : SupConfig) (priceOf : String → Option ℚ)
    (st : SupState) (inp : AssetInput) (side : Side)
    (h : tradeDecision cfg priceOf st inp side = none ∨
      inp.broker_ok = false) :
    tradePhase cfg priceOf st inp side = st := by
  unfold tradePhase
  rcases htd : tradeDecision cfg priceOf st inp side with _ | ord
  · rfl
  · rcases h with h | h
    · rw [htd] at h
      exact absurd h (by simp)
    · dsimp only
      rw [h]
      rfl

/-! ## Invariants of the portfolio and stop-level state -/

/-- All position amounts are non-negative (spec data model: positions are
non-negative by convention, no shorting). -/
def amountsNonneg (st : SupState) : Prop :=
  ∀ code amt, alookup st.positions code = some amt → 0 ≤ amt

/-- A stop level exists exactly for the asset codes whose position amount is
positive. -/
def stopInvariant (st : SupState) : Prop :=
  ∀ code, (alookup st.stop_levels code).isSome = true ↔
    ∃ amt, alookup st.positions code = some amt ∧ 0 < amt

/-- The per-asset loop body preserves non-negativity of positions and the
stop-level/position correspondence. -/
theorem processAsset_preserves (cfg : SupConfig) (priceOf : String → Option ℚ)
    (inp : AssetInput) (st : SupState)
    (hnn : amountsNonneg st) (hinv : stopInvariant st) :
    amountsNonneg (processAsset cfg priceOf st inp) ∧
    stopInvariant (processAsset cfg priceOf st inp) := by
  have hfst := levelPhase_fst cfg st inp
  have hnn1 : amountsNonneg (levelPhase cfg st inp).1 := by
    intro code amt h
    rw [hfst.2] at h
    exact hnn code amt h
  have hinv1 : stopInvariant (levelPhase cfg st inp).1 := by
    intro code
    rw [levelPhase_stop_isSome, hfst.2]
    exact hinv code
  show amountsNonneg (tradePhase cfg priceOf (levelPhase cfg st inp).1 inp
      (levelPhase cfg st inp).2) ∧
    stopInvariant (tradePhase cfg priceOf (levelPhase cfg st inp).1 inp
      (levelPhase cfg st inp).2)
  rcases htd : tradeDecision cfg priceOf (levelPhase cfg st inp).1 inp
      (levelPhase cfg st inp).2 with _ | ord
  · rw [tradePhase_no_trade _ _ _ _ _ (Or.inl htd)]
    exact ⟨hnn1, hinv1⟩
  · by_cases hok : inp.broker_ok = true
    · obtain ⟨hprice, hp0, hcase⟩ := tradeDecision_spec _ _ _ _ _ _ htd
      unfold tradePhase
      rw [htd]
      dsimp only
      rw [if_pos hok]
      rcases hcase with ⟨hside, hq⟩ | ⟨hside, hamt, hq⟩
      · -- executed buy: position rises to a positive amount, stop level set
        rw [hside]
        dsimp only
        have h0 : 0 ≤ (alookup (levelPhase cfg st inp).1.positions
            inp.code).getD 0 := by
          rcases hl : alookup (levelPhase cfg st inp).1.positions inp.code
            with _ | a
          · simp
          · simpa using hnn1 inp.code a hl
        constructor
        · intro code amt h
          dsimp only at h
          by_cases hc : code = inp.code
          · subst hc
            rw [updatePosition_lookup_self] at h
            simp at h
            linarith [h]
          · rw [updatePosition_lookup_ne _ _ _ _ _ _ hc] at h
            exact hnn1 code amt h
        · intro code
          dsimp only
          by_cases hc : code = inp.code
          · subst hc
            rw [alookup_aset_self, updatePosition_lookup_self]
            constructor
            · intro _
              exact ⟨(alookup (levelPhase cfg st inp).1.positions
                  inp.code).getD 0 + ord.quantity, by simp, by linarith⟩
            · intro _
              simp
          · rw [alookup_aset_ne _ _ _ _ hc, updatePosition_stop_levels,
              updatePosition_lookup_ne _ _ _ _ _ _ hc]
            exact hinv1 code
      · -- executed sell: position drops to zero, stop level deleted
        rw [hside]
        dsimp only
        have hstop : (alookup (updatePosition (levelPhase cfg st inp).1
            inp.code Side.sell ord.price ord.quantity).stop_levels
            inp.code).isSome = true := by
          rw [updatePosition_stop_levels]
          exact (hinv1 inp.code).mpr ⟨ord.quantity, hamt, hq⟩
        rw [if_pos hstop]
        constructor
        · intro code amt h
          dsimp only at h
          by_cases hc : code = inp.code
          · subst hc
            rw [updatePosition_lookup_self, hamt] at h
            simp at h
            linarith [h]
          · rw [updatePosition_lookup_ne _ _ _ _ _ _ hc] at h
            exact hnn1 code amt h
        · intro code
          dsimp only
          by_cases hc : code = inp.code
          · subst hc
            rw [updatePosition_stop_levels, alookup_aerase_self,
              updatePosition_lookup_self, hamt]
            simp
          · rw [updatePosition_stop_levels, alookup_aerase_ne _ _ _ hc,
              updatePosition_lookup_ne _ _ _ _ _ _ hc]
            exact hinv1 code
    · rw [tradePhase_no_trade _ _ _ _ _ (Or.inr (by simpa using hok))]
      exact ⟨hnn1, hinv1⟩

/-! ## Claim theorems -/

/-- C2: every execution of run_once preserves the invariant that a StopLevel
entry exists for an asset code exactly when the portfolio position for that
code has a positive amount — an executed buy makes the amount positive and
creates or replaces the single stop level, an executed sell liquidates the
entire held amount (amount 0) and deletes the level — together with
non-negativity of position amounts, which the data model assumes (positions
are non-negative by convention, no shorting). -/
theorem stop_invariant_preserved (cfg : SupConfig)
    (priceOf : String → Option ℚ) (inputs : List AssetInput) (st : SupState)
    (hnn : amountsNonneg st) (hinv : stopInvariant st) :
    amountsNonneg (runOnce cfg priceOf st inputs) ∧
    stopInvariant (runOnce cfg priceOf st inputs) := by
  induction inputs generalizing st with
  | nil => exact ⟨hnn, hinv⟩
  | cons i rest ih =>
    have h := processAsset_preserves cfg priceOf i st hnn hinv
    simpa [runOnce] using ih (processAsset cfg priceOf st i) h.1 h.2

/-- Witness: the invariant holds for the empty portfolio and still holds
after a cycle that executes a buy. -/
theorem stop_invariant_preserved_witness :
    (amountsNonneg ⟨1000, [], []⟩ ∧ stopInvariant ⟨1000, [], []⟩) ∧
    (amountsNonneg (runOnce ⟨1/50, 1/20, 1/20⟩ (fun _ => none) ⟨1000, [], []⟩
        [⟨"BTC", Side.buy, some 50, true⟩]) ∧
     stopInvariant (runOnce ⟨1/50, 1/20, 1/20⟩ (fun _ => none) ⟨1000, [], []⟩
        [⟨"BTC", Side.buy, some 50, true⟩])) := by
  have hnn : amountsNonneg ⟨1000, [], []⟩ := by
    intro code amt h
    simp [alookup] at h
  have hinv : stopInvariant ⟨1000, [], []⟩ := by
    intro code
    simp [alookup]
  exact ⟨⟨hnn, hinv⟩, stop_invariant_preserved _ _ _ _ hnn hinv⟩

/-- C1 (amended): for an asset with an open position, a stop level, and a
resolved nonzero current price at or below the stored stop-loss price or the
recomputed trailing-stop price, the recommendation run_once acts on is sell,
regardless of the side the strategy returned.  (As stated the claim fails
for a resolved price of exactly 0, which Python's truthiness test treats as
an unavailable price.) -/
theorem stop_breach_overrides_to_sell (cfg : SupConfig) (st : SupState)
    (inp : AssetInput) (amt p : ℚ) (lvl : StopLevel)
    (hamt : alookup st.positions inp.code = some amt) (hpos : 0 < amt)
    (hp : inp.rec_price = some p) (hp0 : p ≠ 0)
    (hlvl : alookup st.stop_levels inp.code = some lvl)
    (hbreach : p ≤ lvl.stop_loss ∨
      p ≤ (updateLevel cfg.trailing_stop_pct lvl p).trailing_stop) :
    effectiveSide cfg st inp = Side.sell := by
  rw [updateLevel_trailing] at hbreach
  unfold effectiveSide levelPhase
  rw [hamt, hp]
  dsimp only
  rw [if_pos ⟨hpos, hp0⟩, hlvl]
  dsimp only
  split
  next => rfl
  next hcond => exact absurd hbreach hcond

/-- Witness: the spec's own example — entry 100, stop-loss 95, current price
94, strategy signalling buy — is overridden to sell. -/
theorem stop_breach_overrides_to_sell_witness :
    (alookup (SupState.mk 1000 [("BTC", 1)]
        [("BTC", StopLevel.mk 100 95 100 95)]).positions "BTC" = some 1 ∧
     (0:ℚ) < 1 ∧ (94:ℚ) ≠ 0 ∧
     (94:ℚ) ≤ (StopLevel.mk 100 95 100 95).stop_loss) ∧
    effectiveSide ⟨1/50, 1/20, 1/20⟩
      (SupState.mk 1000 [("BTC", 1)] [("BTC", StopLevel.mk 100 95 100 95)])
      ⟨"BTC", Side.buy, some 94, true⟩ = Side.sell := by
  refine ⟨⟨by decide, by decide, by decide, by decide⟩, ?_⟩
  exact stop_breach_overrides_to_sell _ _ _ 1 94 (StopLevel.mk 100 95 100 95)
    (by decide) (by decide) (by decide) (by decide) (by decide)
    (Or.inl (by decide))

/-- C1 counterexample: with a held position, a stop level whose stop-loss
price 95 is at or above the current price, and a resolved current price of
exactly 0, the acted-on recommendation stays buy: Python's truthiness test
`if pos and pos.amount > 0 and current_price:` skips the override for a
price of 0.0, so the claim as stated fails at a resolved zero price. -/
theorem stop_breach_zero_price_counterexample :
    alookup (SupState.mk 1000 [("BTC", 1)]
        [("BTC", StopLevel.mk 100 95 100 95)]).positions "BTC" = some 1 ∧
    (0:ℚ) < 1 ∧
    alookup (SupState.mk 1000 [("BTC", 1)]
        [("BTC", StopLevel.mk 100 95 100 95)]).stop_levels "BTC" =
      some (StopLevel.mk 100 95 100 95) ∧
    (0:ℚ) ≤ (StopLevel.mk 100 95 100 95).stop_loss ∧
    effectiveSide ⟨1/50, 1/20, 1/20⟩
      (SupState.mk 1000 [("BTC", 1)] [("BTC", StopLevel.mk 100 95 100 95)])
      ⟨"BTC", Side.buy, some 0, true⟩ = Side.buy := by decide

/-- C6: when the broker returns no trade for an asset, run_once keeps cash
and all positions unchanged and the stop-level table exactly as the
stop-loss maintenance phase left it just before the order, and the cycle
continues with the remaining assets. -/
theorem broker_failure_no_mutation (cfg : SupConfig)
    (priceOf : String → Option ℚ) (st : SupState) (inp : AssetInput)
    (rest : List AssetInput) (hfail : inp.broker_ok = false) :
    (processAsset cfg priceOf st inp).cash = st.cash ∧
    (processAsset cfg priceOf st inp).positions = st.positions ∧
    (processAsset cfg priceOf st inp).stop_levels =
      (levelPhase cfg st inp).1.stop_levels ∧
    runOnce cfg priceOf st (inp :: rest) =
      runOnce cfg priceOf (processAsset cfg priceOf st inp) rest := by
  have hnt : processAsset cfg priceOf st inp = (levelPhase cfg st inp).1 := by
    show tradePhase cfg priceOf (levelPhase cfg st inp).1 inp
        (levelPhase cfg st inp).2 = (levelPhase cfg st inp).1
    exact tradePhase_no_trade _ _ _ _ _ (Or.inr hfail)
  refine ⟨?_, ?_, ?_, rfl⟩
  · rw [hnt]
    exact (levelPhase_fst cfg st inp).1
  · rw [hnt]
    exact (levelPhase_fst cfg st inp).2
  · rw [hnt]

/-- Witness: a failed sell order on a held position changes nothing. -/
theorem broker_failure_no_mutation_witness :
    (AssetInput.mk "BTC" Side.sell (some 94) false).broker_ok = false ∧
    ((processAsset ⟨1/50, 1/20, 1/20⟩ (fun _ => none)
        (SupState.mk 1000 [("BTC", 1)] [("BTC", StopLevel.mk 100 95 100 95)])
        (AssetInput.mk "BTC" Side.sell (some 94) false)).cash = 1000 ∧
     (processAsset ⟨1/50, 1/20, 1/20⟩ (fun _ => none)
        (SupState.mk 1000 [("BTC", 1)] [("BTC", StopLevel.mk 100 95 100 95)])
        (AssetInput.mk "BTC" Side.sell (some 94) false)).positions =
       [("BTC", 1)]) := by
  have h := broker_failure_no_mutation ⟨1/50, 1/20, 1/20⟩ (fun _ => none)
    (SupState.mk 1000 [("BTC", 1)] [("BTC", StopLevel.mk 100 95 100 95)])
    (AssetInput.mk "BTC" Side.sell (some 94) false) [] rfl
  exact ⟨rfl, h.1, h.2.1⟩

/-- The stop-loss phase does not change the portfolio valuation. -/
theorem totalValue_levelPhase (cfg : SupConfig)
    (priceOf : String → Option ℚ) (st : SupState) (inp : AssetInput) :
    totalValue priceOf (levelPhase cfg st inp).1 = totalValue priceOf st := by
  unfold totalValue
  rw [(levelPhase_fst cfg st inp).1, (levelPhase_fst cfg st inp).2]

/-- C3: a buy acted on by run_once at current price p > 0 is sized as
quantity = min(cash, total portfolio value × max_risk_pct) / p, so the cash
spent (quantity × p) never exceeds min(cash, max_risk_pct × total value);
and when the computed quantity is not positive, no order is submitted. -/
theorem buy_sizing (cfg : SupConfig) (priceOf : String → Option ℚ)
    (st : SupState) (inp : AssetInput) (p : ℚ)
    (hp : inp.rec_price = some p) (hppos : 0 < p)
    (hside : effectiveSide cfg st inp = Side.buy) :
    tradeDecision cfg priceOf (levelPhase cfg st inp).1 inp
        (effectiveSide cfg st inp) =
      (if min st.cash (totalValue priceOf st * cfg.max_risk_pct) / p ≤ 0
       then none
       else some ⟨Side.buy,
         min st.cash (totalValue priceOf st * cfg.max_risk_pct) / p, p⟩) ∧
    min st.cash (totalValue priceOf st * cfg.max_risk_pct) / p * p ≤
      min st.cash (totalValue priceOf st * cfg.max_risk_pct) := by
  constructor
  · rw [hside]
    unfold tradeDecision
    rw [hp]
    dsimp only
    rw [if_pos ⟨Or.inl rfl, ne_of_gt hppos⟩]
    rw [if_pos hppos, (levelPhase_fst cfg st inp).1, totalValue_levelPhase]
  · exact le_of_eq (div_mul_cancel₀ _ (ne_of_gt hppos))

/-- Witness: the spec's sizing example — cash 1000, max risk 2%, total value
1000, price 50 — yields a buy order for quantity 0.4. -/
theorem buy_sizing_witness :
    ((AssetInput.mk "BTC" Side.buy (some 50) true).rec_price = some 50 ∧
     (0:ℚ) < 50 ∧
     effectiveSide ⟨1/50, 1/20, 1/20⟩ ⟨1000, [], []⟩
       (AssetInput.mk "BTC" Side.buy (some 50) true) = Side.buy) ∧
    tradeDecision ⟨1/50, 1/20, 1/20⟩ (fun _ => none)
        (levelPhase ⟨1/50, 1/20, 1/20⟩ ⟨1000, [], []⟩
          (AssetInput.mk "BTC" Side.buy (some 50) true)).1
        (AssetInput.mk "BTC" Side.buy (some 50) true)
        (effectiveSide ⟨1/50, 1/20, 1/20⟩ ⟨1000, [], []⟩
          (AssetInput.mk "BTC" Side.buy (some 50) true)) =
      some ⟨Side.buy, 2/5, 50⟩ := by
  have h := buy_sizing ⟨1/50, 1/20, 1/20⟩ (fun _ => none) ⟨1000, [], []⟩
    (AssetInput.mk "BTC" Side.buy (some 50) true) 50 rfl (by norm_num)
    (by decide)
  refine ⟨⟨rfl, by norm_num, by decide⟩, ?_⟩
  rw [h.1]
  have htv : totalValue (fun _ => none) (⟨1000, [], []⟩ : SupState) = 1000 := by
    norm_num [totalValue]
  rw [htv]
  norm_num [min_def]

/-- C5: across consecutive cycles in which the position stays open and no
buy resets the stop level, run_once applies `updateLevel` to the stored
level at each observed price, so the recorded highest price is monotonically
non-decreasing and the trailing-stop price is non-decreasing and never
exceeds highest × (1 − trailing_stop_pct) — given a trailing percentage of
at most 1 and a level whose trailing stop starts at or below
highest × (1 − trailing_stop_pct), as holds for a level just created by a
buy. -/
theorem trailing_stop_monotone (tsp : ℚ) (lvl : StopLevel) (ps : List ℚ)
    (htsp : tsp ≤ 1)
    (hinit : lvl.trailing_stop ≤ lvl.highest_price * (1 - tsp)) :
    lvl.highest_price ≤ (ps.foldl (updateLevel tsp) lvl).highest_price ∧
    lvl.trailing_stop ≤ (ps.foldl (updateLevel tsp) lvl).trailing_stop ∧
    (ps.foldl (updateLevel tsp) lvl).trailing_stop ≤
      (ps.foldl (updateLevel tsp) lvl).highest_price * (1 - tsp) := by
  induction ps generalizing lvl with
  | nil => exact ⟨le_refl _, le_refl _, hinit⟩
  | cons p rest ih =>
    have h1t : (0:ℚ) ≤ 1 - tsp := by linarith
    have hh : lvl.highest_price ≤ (updateLevel tsp lvl p).highest_price := by
      rw [updateLevel_highest]
      exact le_max_left _ _
    have htr : lvl.trailing_stop ≤ (updateLevel tsp lvl p).trailing_stop := by
      rw [updateLevel_trailing]
      calc lvl.trailing_stop ≤ lvl.highest_price * (1 - tsp) := hinit
        _ ≤ max lvl.highest_price p * (1 - tsp) :=
          mul_le_mul_of_nonneg_right (le_max_left _ _) h1t
    have hinit1 : (updateLevel tsp lvl p).trailing_stop ≤
        (updateLevel tsp lvl p).highest_price * (1 - tsp) := by
      rw [updateLevel_trailing, updateLevel_highest]
    obtain ⟨a, b, c⟩ := ih (updateLevel tsp lvl p) hinit1
    exact ⟨le_trans hh a, le_trans htr b, c⟩

/-- Witness: a freshly created level (entry 100, 5% trailing) observed at
prices 110 then 105 keeps its bounds. -/
theorem trailing_stop_monotone_witness :
    ((1:ℚ)/20 ≤ 1 ∧
     (StopLevel.mk 100 95 100 95).trailing_stop ≤
       (StopLevel.mk 100 95 100 95).highest_price * (1 - 1/20)) ∧
    ((StopLevel.mk 100 95 100 95).highest_price ≤
       (List.foldl (updateLevel (1/20)) (StopLevel.mk 100 95 100 95)
         [110, 105]).highest_price ∧
     (StopLevel.mk 100 95 100 95).trailing_stop ≤
       (List.foldl (updateLevel (1/20)) (StopLevel.mk 100 95 100 95)
         [110, 105]).trailing_stop ∧
     (List.foldl (updateLevel (1/20)) (StopLevel.mk 100 95 100 95)
         [110, 105]).trailing_stop ≤
       (List.foldl (updateLevel (1/20)) (StopLevel.mk 100 95 100 95)
         [110, 105]).highest_price * (1 - 1/20)) := by
  refine ⟨⟨by norm_num, by norm_num⟩, ?_⟩
  exact trailing_stop_monotone (1/20) (StopLevel.mk 100 95 100 95) [110, 105]
    (by norm_num) (by norm_num)

/-- C4 (amended): for a non-empty series strictly shorter than the window,
the basic strategy does not treat the SMA as undefined: the slice
`prices[-window:]` is the whole series, so it averages over all available
points and applies the usual threshold rule (raising ZeroDivisionError when
that average is 0); hold with confidence 0 is returned only for an empty
series. -/
theorem short_series_uses_whole_average (w : Nat) (θ : ℚ) (prices : List ℚ)
    (current : ℚ) (hne : prices ≠ []) (hlen : prices.length < w) :
    smaGenerate ⟨w, θ⟩ prices current =
      (if prices.sum / (prices.length : ℚ) = 0 then
        .zeroDivision "average_price"
       else
        .ok { side :=
                if (current - prices.sum / (prices.length : ℚ)) /
                    (prices.sum / (prices.length : ℚ)) > θ then Side.buy
                else if (current - prices.sum / (prices.length : ℚ)) /
                    (prices.sum / (prices.length : ℚ)) < -θ then Side.sell
                else Side.hold,
              price := some current,
              confidence := min |(current - prices.sum / (prices.length : ℚ)) /
                (prices.sum / (prices.length : ℚ))| 1 }) := by
  have hsl : lastSlice prices w = prices := by
    unfold lastSlice
    rw [if_neg (by omega)]
    have h0 : prices.length - w = 0 := by omega
    rw [h0, List.drop_zero]
  unfold smaGenerate
  rw [if_neg hne, hsl]

/-- C4 counterexample: the one-element series [100] is shorter than the
window 7, yet the basic strategy emits buy with confidence 0.1 at current
price 110, not hold with confidence 0. -/
theorem short_series_counterexample :
    ([(100:ℚ)] ≠ [] ∧ [(100:ℚ)].length < 7) ∧
    smaGenerate ⟨7, 1/50⟩ [100] 110 =
      .ok { side := Side.buy, price := some 110, confidence := 1/10 } := by
  refine ⟨⟨by simp, by norm_num⟩, ?_⟩
  norm_num [smaGenerate, lastSlice, min_def, abs]

/-- Witness: the amended rule instantiated on the same short series. -/
theorem short_series_uses_whole_average_witness :
    ([(100:ℚ)] ≠ [] ∧ [(100:ℚ)].length < 7) ∧
    smaGenerate ⟨7, 1/50⟩ [100] 109 =
      .ok { side := Side.buy, price := some 109, confidence := 9/100 } := by
  have h := short_series_uses_whole_average 7 (1/50) [100] 109 (by simp)
    (by norm_num)
  refine ⟨⟨by simp, by norm_num⟩, ?_⟩
  rw [h]
  norm_num [min_def, abs]

/-- RSI average gains are non-negative. -/
theorem avgGain_nonneg (prices : List ℚ) (period : Nat) :
    0 ≤ avgGain prices period := by
  unfold avgGain
  dsimp only
  split
  · exact le_refl 0
  · apply div_nonneg
    · apply List.sum_nonneg
      intro x hx
      simp only [List.mem_filter, decide_eq_true_eq] at hx
      exact hx.2
    · exact Nat.cast_nonneg period

/-- RSI average losses are non-negative. -/
theorem avgLoss_nonneg (prices : List ℚ) (period : Nat) :
    0 ≤ avgLoss prices period := by
  unfold avgLoss
  dsimp only
  split
  · exact le_refl 0
  · apply div_nonneg
    · apply List.sum_nonneg
      intro x hx
      simp only [List.mem_map, List.mem_filter, decide_eq_true_eq] at hx
      obtain ⟨c, ⟨hm, hc⟩, rfl⟩ := hx
      linarith
    · exact Nat.cast_nonneg period

/-- C7: RSI is undefined exactly when the series has fewer than period+1
points; when defined it equals 100 exactly when the average loss is zero,
otherwise 100 − 100/(1 + avgGain/avgLoss) where the averages divide the
summed gains/losses over the last period consecutive changes by period; and
it always lies in [0, 100]. -/
theorem rsi_spec (prices : List ℚ) (period : Nat) :
    (rsi prices period = none ↔ prices.length < period + 1) ∧
    ∀ r, rsi prices period = some r →
      ((0 ≤ r ∧ r ≤ 100) ∧
       (avgLoss prices period = 0 → r = 100) ∧
       (avgLoss prices period ≠ 0 →
         r = 100 - 100 /
           (1 + avgGain prices period / avgLoss prices period))) := by
  by_cases hlen : prices.length < period + 1
  · constructor
    · simp [rsi, hlen]
    · intro r hr
      rw [rsi, if_pos hlen] at hr
      exact absurd hr (by simp)
  · constructor
    · constructor
      · intro h
        rw [rsi, if_neg hlen] at h
        split at h <;> simp at h
      · intro h
        exact absurd h hlen
    · intro r hr
      rw [rsi, if_neg hlen] at hr
      by_cases hL : avgLoss prices period = 0
      · rw [if_pos hL] at hr
        obtain rfl := (Option.some_inj.mp hr).symm
        exact ⟨⟨by norm_num, le_refl _⟩, fun _ => rfl, fun hc => absurd hL hc⟩
      · rw [if_neg hL] at hr
        obtain rfl := (Option.some_inj.mp hr).symm
        have hG := avgGain_nonneg prices period
        have hLpos : 0 < avgLoss prices period :=
          lt_of_le_of_ne (avgLoss_nonneg prices period) (Ne.symm hL)
        have hrs : 0 ≤ avgGain prices period / avgLoss prices period :=
          div_nonneg hG (le_of_lt hLpos)
        refine ⟨⟨?_, ?_⟩, fun hc => absurd hc hL, fun _ => rfl⟩
        · have hdiv : 100 /
              (1 + avgGain prices period / avgLoss prices period) ≤ 100 :=
            div_le_self (by norm_num) (by linarith)
          linarith
        · have hdivpos : 0 ≤ 100 /
              (1 + avgGain prices period / avgLoss prices period) :=
            div_nonneg (by norm_num) (by linarith)
          linarith

/-- Witness: on [1, 2, 1] with period 2 the gain and loss average to 1/2
each, and RSI is 50, inside [0, 100]. -/
theorem rsi_spec_witness :
    rsi [1, 2, 1] 2 = some 50 ∧ (0 ≤ (50:ℚ) ∧ (50:ℚ) ≤ 100) := by
  have hval : rsi [1, 2, 1] 2 = some 50 := by
    norm_num [rsi, avgGain, avgLoss, priceChanges, diffs, lastSlice]
  exact ⟨hval, ((rsi_spec [1, 2, 1] 2).2 50 hval).1⟩

/-- C8 (amended): when the volume window yields exactly one volume point,
the average volume degenerates to that single point, but the confirmation
check then trivially FAILS rather than passes: the latest volume is compared
strictly against itself. -/
theorem single_volume_point_gate (volumes : List ℚ) (vw : Nat)
    (hcond : volumes ≠ [] ∧ vw ≤ volumes.length)
    (hone : (lastSlice volumes vw).length = 1) :
    volumeGate volumes vw =
      (some ((lastSlice volumes vw).headD 0), false) := by
  obtain ⟨v, hv⟩ := List.length_eq_one.mp hone
  unfold volumeGate
  rw [if_pos hcond]
  dsimp only
  rw [hv]
  simp

/-- C8 counterexample: a single volume point 5 in a window of 1 yields
average 5 and a failed gate, where the claim asserts the gate passes. -/
theorem single_volume_point_counterexample :
    (lastSlice [(5:ℚ)] 1).length = 1 ∧
    volumeGate [5] 1 = (some 5, false) := by
  exact ⟨by decide, by decide⟩

/-- Witness: the amended single-point rule at volumes [5], window 1. -/
theorem single_volume_point_gate_witness :
    (([(5:ℚ)] ≠ [] ∧ 1 ≤ [(5:ℚ)].length) ∧
      (lastSlice [(5:ℚ)] 1).length = 1) ∧
    volumeGate [5] 1 = (some ((lastSlice [(5:ℚ)] 1).headD 0), false) :=
  ⟨⟨⟨by simp, by simp⟩, by decide⟩,
    single_volume_point_gate [5] 1 ⟨by simp, by simp⟩ (by decide)⟩

/-- C9 (amended): on an empty series the basic strategy returns hold with
confidence 0 and price equal to the current price — not an absent price. -/
theorem empty_series_returns_hold (w : Nat) (θ current : ℚ) :
    smaGenerate ⟨w, θ⟩ [] current =
      .ok { side := Side.hold, price := some current, confidence := 0 } := rfl

/-- C9 counterexample: on the empty series at current price 5 the returned
recommendation carries price 5, not an absent price. -/
theorem empty_series_price_counterexample :
    smaGenerate ⟨7, 1/50⟩ [] 5 =
      .ok { side := Side.hold, price := some 5, confidence := 0 } ∧
    some (5:ℚ) ≠ none :=
  ⟨rfl, by simp⟩

/-- Hold short-circuit of the enhanced signal selection: an undefined or
zero short SMA forces hold with confidence 0 whatever the other gates say. -/
theorem decideSide_hold (cfg : EnhancedConfig) (current : ℚ)
    (short_sma long_sma : Option ℚ) (v rb rs so ro : Bool)
    (h : short_sma = none ∨ short_sma = some 0) :
    decideSide cfg current short_sma long_sma v rb rs so ro =
      { side := Side.hold, price := some current, confidence := 0 } := by
  rcases h with h | h <;> rw [h]
  · rfl
  · simp [decideSide]

/-- C10 (amended): when the short SMA is undefined or exactly zero, the
enhanced strategy returns hold with confidence 0 — provided the
support/resistance computation itself does not divide by zero (when the
long window is populated, its recent high and low must be nonzero) — and on
no input at all does the strategy divide by a zero short SMA in the delta
computation: the `if short_sma:` truthiness guard makes that division
unreachable, the only division-by-zero sites being support/resistance. -/
theorem zero_short_sma_holds (cfg : EnhancedConfig) (prices volumes : List ℚ)
    (current : ℚ)
    (hsma : sma prices cfg.short_window = none ∨
      sma prices cfg.short_window = some 0)
    (hsafe : ¬(prices ≠ [] ∧ cfg.long_window ≤ prices.length) ∨
      (listMax (lastSlice prices cfg.long_window) ≠ 0 ∧
       listMin (lastSlice prices cfg.long_window) ≠ 0)) :
    enhancedGenerate cfg prices volumes current =
      .ok { side := Side.hold, price := some current, confidence := 0 } ∧
    ∀ (cfg2 : EnhancedConfig) (prices2 volumes2 : List ℚ) (current2 : ℚ),
      enhancedGenerate cfg2 prices2 volumes2 current2 ≠
        .zeroDivision "delta" := by
  constructor
  · simp only [enhancedGenerate]
    split
    next hc =>
      rcases hsafe with hsafe | ⟨hhigh, hlow⟩
      · exact absurd hc hsafe
      · rw [if_neg hhigh, if_neg hlow,
          decideSide_hold _ _ _ _ _ _ _ _ _ hsma]
    next hc =>
      rw [decideSide_hold _ _ _ _ _ _ _ _ _ hsma]
  · intro cfg2 prices2 volumes2 current2
    simp only [enhancedGenerate]
    split
    · split
      · decide
      · split
        · decide
        · simp
    · simp

/-- C10 counterexample: with short and long windows of 2 and the all-zero
series [0, 0], the short SMA is defined and equals 0, but instead of
returning hold the strategy raises ZeroDivisionError in the resistance check
(the recent high is 0). -/
theorem zero_short_sma_counterexample :
    sma [(0:ℚ), 0] 2 = some 0 ∧
    enhancedGenerate ⟨2, 2, 1/50, 7, 14, 70, 30⟩ [0, 0] [] 1 =
      .zeroDivision "resistance" := by
  constructor
  · norm_num [sma, lastSlice]
    intro h
    exact absurd h (by simp)
  · norm_num [enhancedGenerate, lastSlice, listMax, listMin]
    intro h
    exact absurd h (by simp)

/-- Witness: a one-point series under a 7-day short window holds. -/
theorem zero_short_sma_holds_witness :
    (sma [(1:ℚ)] 7 = none ∧
      ¬(([(1:ℚ)] : List ℚ) ≠ [] ∧ 50 ≤ ([(1:ℚ)] : List ℚ).length)) ∧
    enhancedGenerate ⟨7, 50, 1/50, 7, 14, 70, 30⟩ [1] [] 5 =
      .ok { side := Side.hold, price := some 5, confidence := 0 } := by
  have h := zero_short_sma_holds ⟨7, 50, 1/50, 7, 14, 70, 30⟩ [1] [] 5
    (Or.inl (by decide)) (Or.inl (by decide))
  exact ⟨⟨by decide, by decide⟩, h.1⟩

end Redshot
